/-
Verification of the joplin-attachment-cleaner pipeline.

The repository holds two variants of the same Go program:
  * variant V1 (`Recorder`): collects resources with sizes, filters out the
    referenced ones and deletes the orphans unconditionally, recording a
    deleted count, a reclaimed-byte total and a list of failed identifiers;
  * variant V2 (`Req`): collects identifiers only, filters, prints the orphan
    list, asks for confirmation on standard input and then deletes.

Both variants funnel every HTTP exchange through `readRespBody`, which issues
one request and decodes the JSON body into a `joplinResponse` envelope,
swallowing the decoder's EOF for an empty body.

The embedding below mirrors the Go code: the network is an oracle giving, per
request, the wire outcome (transport failure, empty body, malformed body, or a
decoded envelope); Go maps become association lists with overwrite-on-insert;
loops become structural recursion (the unbounded pagination loop takes fuel,
returning `none` only on exhaustion, which never happens for the servers the
theorems consider).
-/
import Mathlib

set_option maxHeartbeats 1000000

namespace JoplinCleaner

/-- One JSON item: a resource or note identifier, with the size field the V1
variant also decodes (V2 simply ignores it). Go `int` is modelled as `Int`. -/
structure Item where
  id : String
  size : Int
  deriving DecidableEq, Repr

/-- The `joplinResponse` envelope: error message (empty string means success),
item list, and the `has_more` pagination flag. -/
structure JoplinResponse where
  error : String
  items : List Item
  more : Bool
  deriving DecidableEq, Repr

/-- The zero value a `joplinResponse` variable has in Go before decoding; this
is what `readRespBody` leaves in place when the body is empty. -/
def zeroResponse : JoplinResponse := ⟨"", [], false⟩

/-- What the wire and the JSON decoder produce for one HTTP request:
`netErr` models a failure of `client.Do` (connection refused, timeout, DNS),
`decodeEOF` an empty body (the decoder reports `io.EOF`), `decodeErr` any
other malformed body, `decoded` a successfully decoded envelope. -/
inductive WireOutcome where
  | netErr (msg : String)
  | decodeEOF
  | decodeErr (msg : String)
  | decoded (resp : JoplinResponse)
  deriving DecidableEq, Repr

/-- The error-routing logic of `readRespBody` applied to one wire outcome:
transport errors and non-EOF decode errors are returned, EOF on an empty body
is swallowed leaving the zero-value envelope, a decoded envelope is returned. -/
def readOne : WireOutcome → Except String JoplinResponse
  | .netErr m => .error m
  | .decodeEOF => .ok zeroResponse
  | .decodeErr m => .error m
  | .decoded r => .ok r

/-- `readRespBody`: builds the request, performs exactly one wire exchange
(the head of the oracle's trace) and routes the outcome through the
EOF-swallowing decode logic. The second component counts the wire exchanges
performed: the function never retries, so it is always 1. -/
def readRespBody (wire : Nat → WireOutcome) : Except String JoplinResponse × Nat :=
  (readOne (wire 0), 1)

/-! ### Go map model

V1 keeps `map[string]int` (identifier to size); V2 keeps `map[string]struct{}`.
Both are modelled as lists with overwrite / insert-if-absent semantics. -/

/-- Go map assignment `m[k] = v` on an association list: overwrite the entry
if the key is present, append otherwise. -/
def mapInsert (m : List (String × Int)) (k : String) (v : Int) : List (String × Int) :=
  if m.any (fun p => p.1 = k) then
    m.map (fun p => if p.1 = k then (k, v) else p)
  else m ++ [(k, v)]

/-- Go `delete(m, k)` on an association list. -/
def mapErase (m : List (String × Int)) (k : String) : List (String × Int) :=
  m.filter (fun p => ¬ p.1 = k)

/-- Go set insertion into a `map[string]struct{}`: a no-op when the key is
already present. -/
def setInsert (s : List String) (k : String) : List String :=
  if s.contains k then s else s ++ [k]

/-! ### V1: the `Recorder` (auto-delete) variant -/

/-- Result of the V1 collection loop `getAllResources`: either the accumulated
resource map or the first error, together with the number of page requests
issued. -/
inductive CollectOut where
  | ok (resources : List (String × Int)) (requests : Nat)
  | err (msg : String) (requests : Nat)
  deriving DecidableEq, Repr

/-- The body of V1 `getAllResources`: request page `page`, abort on transport
error or a non-empty envelope error, fold the page's items into the map, and
continue with the next page while `has_more` is set. `serv` maps a page number
to the wire outcome of the corresponding GET. `fuel` bounds the recursion;
`none` means fuel ran out with `has_more` still true. -/
def getAllResourcesLoop (serv : Nat → WireOutcome) :
    Nat → Nat → List (String × Int) → Nat → Option CollectOut
  | 0, _, _, _ => none
  | fuel + 1, page, acc, reqs =>
    match readOne (serv page) with
    | .error m => some (.err m (reqs + 1))
    | .ok resp =>
      if resp.error ≠ "" then some (.err resp.error (reqs + 1))
      else
        let acc := resp.items.foldl (fun a it => mapInsert a it.id it.size) acc
        if resp.more then getAllResourcesLoop serv fuel (page + 1) acc (reqs + 1)
        else some (.ok acc (reqs + 1))

/-- V1 `getAllResources`: start at page 1 with an empty map. -/
def getAllResources (serv : Nat → WireOutcome) (fuel : Nat) : Option CollectOut :=
  getAllResourcesLoop serv fuel 1 [] 0

/-- Result of a filter pass: the (possibly partially) filtered map — the code
leaves the map as mutated so far when it aborts — and the number of
per-resource note queries issued. -/
inductive FilterOut where
  | ok (resources : List (String × Int)) (requests : Nat)
  | err (msg : String) (resources : List (String × Int)) (requests : Nat)
  deriving DecidableEq, Repr

/-- The body of V1 `filterResources`: for each identifier in the iteration
list, query the referencing notes; abort on transport or envelope error;
remove the identifier from the map when the returned item list is non-empty.
`notesServ` maps an identifier to the wire outcome of its notes query. -/
def filterResourcesLoop (notesServ : String → WireOutcome) :
    List String → List (String × Int) → Nat → FilterOut
  | [], m, reqs => .ok m reqs
  | id :: rest, m, reqs =>
    match readOne (notesServ id) with
    | .error e => .err e m (reqs + 1)
    | .ok resp =>
      if resp.error ≠ "" then .err resp.error m (reqs + 1)
      else if resp.items.length > 0 then
        filterResourcesLoop notesServ rest (mapErase m id) (reqs + 1)
      else filterResourcesLoop notesServ rest m (reqs + 1)

/-- V1 `filterResources`: iterate over the map's current keys (Go's map range
order is unspecified; the model iterates in list order, and the theorems hold
for the key list of the map, as deleting the visited key never affects which
other keys the range visits). -/
def filterResources (notesServ : String → WireOutcome) (m : List (String × Int)) : FilterOut :=
  filterResourcesLoop notesServ (m.map Prod.fst) m 0

/-- Result of V1 `deleteOrphanedResources`: the final deleted count, reclaimed
byte total and failure list (or those at the moment of a transport abort),
plus the number of DELETE requests issued. -/
inductive DeleteOut where
  | ok (count : Nat) (totalSize : Int) (failToDelete : List String) (requests : Nat)
  | err (msg : String) (count : Nat) (totalSize : Int) (failToDelete : List String) (requests : Nat)
  deriving DecidableEq, Repr

/-- The body of V1 `deleteOrphanedResources`: for each map entry issue a
DELETE; a transport failure aborts the loop immediately; a non-empty envelope
error appends the identifier to `failToDelete` and continues; otherwise the
count and the reclaimed-size total are incremented. `delServ` maps an
identifier to the wire outcome of its DELETE. -/
def deleteOrphanedResources (delServ : String → WireOutcome) :
    List (String × Int) → Nat → Int → List String → Nat → DeleteOut
  | [], count, total, fails, reqs => .ok count total fails reqs
  | (id, size) :: rest, count, total, fails, reqs =>
    match readOne (delServ id) with
    | .error m => .err m count total fails (reqs + 1)
    | .ok resp =>
      if resp.error ≠ "" then
        deleteOrphanedResources delServ rest count total (fails ++ [id]) (reqs + 1)
      else
        deleteOrphanedResources delServ rest (count + 1) (total + size) fails (reqs + 1)

/-- Outcome of the V1 pipeline (`main` after flag validation): which stage
failed, or the final summary data printed by `main`. -/
inductive RunOut where
  | collectErr (msg : String)
  | filterErr (msg : String)
  | deleteErr (msg : String)
  | done (count : Nat) (totalSize : Int) (failToDelete : List String)
  deriving DecidableEq, Repr

/-- Request counts per stage of one V1 run. -/
structure RunTrace where
  out : RunOut
  collectReqs : Nat
  filterReqs : Nat
  deleteReqs : Nat
  deriving DecidableEq, Repr

/-- The V1 `main` pipeline after flag validation: collect, then filter, then
delete, each stage aborting the run on error (so a collection error issues no
filter and no delete request). `none` only on fuel exhaustion in the
collection loop. -/
def runPipeline (serv : Nat → WireOutcome) (notesServ : String → WireOutcome)
    (delServ : String → WireOutcome) (fuel : Nat) : Option RunTrace :=
  match getAllResources serv fuel with
  | none => none
  | some (.err m creqs) => some ⟨.collectErr m, creqs, 0, 0⟩
  | some (.ok res creqs) =>
    match filterResources notesServ res with
    | .err m _ freqs => some ⟨.filterErr m, creqs, freqs, 0⟩
    | .ok orphans freqs =>
      match deleteOrphanedResources delServ orphans 0 0 [] 0 with
      | .err m _ _ _ dreqs => some ⟨.deleteErr m, creqs, freqs, dreqs⟩
      | .ok count total fails dreqs => some ⟨.done count total fails, creqs, freqs, dreqs⟩

/-! ### V2: the confirmation-prompt variant -/

/-- Result of V2 `getAllResources` (identifier set, no sizes). -/
inductive CollectOut2 where
  | ok (resourcesIDs : List String) (requests : Nat)
  | err (msg : String) (requests : Nat)
  deriving DecidableEq, Repr

/-- The body of V2 `getAllResources`: identical pagination and error handling
to V1, but the accumulator is the identifier set. -/
def getAllResources2Loop (serv : Nat → WireOutcome) :
    Nat → Nat → List String → Nat → Option CollectOut2
  | 0, _, _, _ => none
  | fuel + 1, page, acc, reqs =>
    match readOne (serv page) with
    | .error m => some (.err m (reqs + 1))
    | .ok resp =>
      if resp.error ≠ "" then some (.err resp.error (reqs + 1))
      else
        let acc := resp.items.foldl (fun a it => setInsert a it.id) acc
        if resp.more then getAllResources2Loop serv fuel (page + 1) acc (reqs + 1)
        else some (.ok acc (reqs + 1))

/-- V2 `getAllResources`: start at page 1 with an empty identifier set. -/
def getAllResources2 (serv : Nat → WireOutcome) (fuel : Nat) : Option CollectOut2 :=
  getAllResources2Loop serv fuel 1 [] 0

/-- Result of the V2 filter pass over the identifier set. -/
inductive FilterOut2 where
  | ok (resourcesIDs : List String) (requests : Nat)
  | err (msg : String) (resourcesIDs : List String) (requests : Nat)
  deriving DecidableEq, Repr

/-- The body of V2 `filterResources`: same logic as V1 over the identifier
set; `s.filter (· ≠ id)` is Go's `delete(resources, id)` on the set. -/
def filterResources2Loop (notesServ : String → WireOutcome) :
    List String → List String → Nat → FilterOut2
  | [], s, reqs => .ok s reqs
  | id :: rest, s, reqs =>
    match readOne (notesServ id) with
    | .error e => .err e s (reqs + 1)
    | .ok resp =>
      if resp.error ≠ "" then .err resp.error s (reqs + 1)
      else if resp.items.length > 0 then
        filterResources2Loop notesServ rest (s.filter (fun x => ¬ x = id)) (reqs + 1)
      else filterResources2Loop notesServ rest s (reqs + 1)

/-- V2 `filterResources`: iterate over the set's current members. -/
def filterResources2 (notesServ : String → WireOutcome) (s : List String) : FilterOut2 :=
  filterResources2Loop notesServ s s 0

/-- Result of V2 `deleteResources`: unlike V1 there is no failure list — the
first error of any kind (transport or envelope) aborts the loop. -/
inductive DeleteOut2 where
  | ok (requests : Nat)
  | err (msg : String) (requests : Nat)
  deriving DecidableEq, Repr

/-- The body of V2 `deleteResources`: issue a DELETE per identifier; both a
transport failure and a non-empty envelope error return immediately with the
error, aborting the loop. -/
def deleteResources (delServ : String → WireOutcome) :
    List String → Nat → DeleteOut2
  | [], reqs => .ok reqs
  | id :: rest, reqs =>
    match readOne (delServ id) with
    | .error m => .err m (reqs + 1)
    | .ok resp =>
      if resp.error ≠ "" then .err resp.error (reqs + 1)
      else deleteResources delServ rest (reqs + 1)

/-- Go `strings.TrimSuffix(input, "\n")`: drop one trailing newline if
present (a string ends with the one-character suffix `"\n"` exactly when its
last character is a newline). `bufio.ReadString` includes the delimiter in
the returned line. -/
def trimSuffixNewline (s : String) : String :=
  if s.data.getLast? = some '\n' then ⟨s.data.dropLast⟩ else s

/-- Outcome of the V2 `main` pipeline after flag validation. -/
inductive Run2Out where
  | collectErr (msg : String)
  | filterErr (msg : String)
  | noUnused
  | stdinErr (msg : String)
  | declined (input : String)
  | deleteErr (msg : String)
  | deleted
  deriving DecidableEq, Repr

/-- Outcome of one V2 run together with the number of DELETE requests the run
issued. -/
structure Run2Trace where
  out : Run2Out
  deleteReqs : Nat
  deriving DecidableEq, Repr

/-- The V2 `main` pipeline after flag validation: collect, filter, report
"no unused attachments" when the set is empty, otherwise print the orphan
list, read one line from standard input (`stdin` is the result of
`bufio.ReadString`, an error when end-of-input comes before a newline), strip
the trailing newline, and delete only when the line is exactly "yes" or
"Yes"; anything else — including a read error — returns without any DELETE. -/
def runPipeline2 (serv : Nat → WireOutcome) (notesServ : String → WireOutcome)
    (delServ : String → WireOutcome) (fuel : Nat) (stdin : Except String String) :
    Option Run2Trace :=
  match getAllResources2 serv fuel with
  | none => none
  | some (.err m _) => some ⟨.collectErr m, 0⟩
  | some (.ok ids _) =>
    match filterResources2 notesServ ids with
    | .err m _ _ => some ⟨.filterErr m, 0⟩
    | .ok orphans _ =>
      if orphans.length < 1 then some ⟨.noUnused, 0⟩
      else
        match stdin with
        | .error e => some ⟨.stdinErr e, 0⟩
        | .ok line =>
          let input := trimSuffixNewline line
          if input ≠ "yes" ∧ input ≠ "Yes" then some ⟨.declined input, 0⟩
          else
            match deleteResources delServ orphans 0 with
            | .ok dreqs => some ⟨.deleted, dreqs⟩
            | .err m dreqs => some ⟨.deleteErr m, dreqs⟩

/-! ### Server models and oracle predicates used by the theorems -/

/-- The slice of a full listing that the service returns for 1-based `page`
with the fixed page size 100. -/
def pageSlice (all : List Item) (page : Nat) : List Item :=
  (all.drop ((page - 1) * 100)).take 100

/-- A well-behaved paginated listing server over the full item list `all`:
page `page` carries its 100-item slice, no error, and `has_more` exactly when
items remain beyond this page. -/
def paginatedServ (all : List Item) : Nat → WireOutcome :=
  fun page => .decoded ⟨"", pageSlice all page, decide (page * 100 < all.length)⟩

/-- Number of page requests the collection loop issues for a listing of `n`
total items: `n / 100` when `n` is a positive multiple of 100 (the last full
page already reports no more), `n / 100 + 1` otherwise (the always-issued
first request included). -/
def reqPages (n : Nat) : Nat :=
  if n % 100 = 0 ∧ 0 < n / 100 then n / 100 else n / 100 + 1

/-- The notes oracle answered identifier `id` without transport or envelope
error. -/
def notesOK (notesServ : String → WireOutcome) (id : String) : Prop :=
  ∃ resp, readOne (notesServ id) = .ok resp ∧ resp.error = ""

/-- Whether the notes oracle reports at least one referencing note for `id`. -/
def referenced (notesServ : String → WireOutcome) (id : String) : Bool :=
  match readOne (notesServ id) with
  | .ok resp => resp.items.length > 0
  | .error _ => false

/-- The DELETE for `id` got a decoded (or empty-body) response: no transport
failure. -/
def deleteOK (delServ : String → WireOutcome) (id : String) : Prop :=
  ∃ resp, readOne (delServ id) = .ok resp

/-- Whether the DELETE response for `id` reports success (empty error). -/
def delSucceeds (delServ : String → WireOutcome) (id : String) : Bool :=
  match readOne (delServ id) with
  | .ok resp => resp.error = ""
  | .error _ => false

/-- Number of DELETE requests a V2 deletion result accounts for. -/
def DeleteOut2.requests : DeleteOut2 → Nat
  | .ok reqs => reqs
  | .err _ reqs => reqs

/-! ## Theorems -/

/-- C8: the transport helper returns no error when the response body is empty
(the JSON decoder's EOF is swallowed, leaving the zero-value envelope),
returns the decode error for any other malformed body, returns the underlying
error for every network-level failure, and always performs exactly one wire
exchange — it never retries. -/
theorem transport_error_routing (wire : Nat → WireOutcome) :
    (readRespBody wire).2 = 1
    ∧ (wire 0 = .decodeEOF → (readRespBody wire).1 = .ok zeroResponse)
    ∧ (∀ m, wire 0 = .decodeErr m → (readRespBody wire).1 = .error m)
    ∧ (∀ m, wire 0 = .netErr m → (readRespBody wire).1 = .error m) := by
  refine ⟨rfl, fun h => ?_, fun m h => ?_, fun m h => ?_⟩ <;>
    simp [readRespBody, h, readOne]

/-- Witness for C8: the three routings at concrete wire outcomes, and the
single-exchange count. -/
theorem transport_error_routing_witness :
    (readRespBody fun _ => .decodeEOF).1 = .ok zeroResponse
    ∧ (readRespBody fun _ => .decodeErr "bad json").1 = .error "bad json"
    ∧ (readRespBody fun _ => .netErr "connection refused").1 = .error "connection refused"
    ∧ (readRespBody fun _ => .netErr "connection refused").2 = 1 :=
  ⟨(transport_error_routing _).2.1 rfl,
   (transport_error_routing _).2.2.1 _ rfl,
   (transport_error_routing _).2.2.2 _ rfl,
   (transport_error_routing _).1⟩

/-- C1 (evaluation at the failing input): with two orphans where the DELETE
for "a" fails at the transport level, `deleteOrphanedResources` returns the
transport error after a single request — "b" is never attempted, so the loop
does not treat a transport failure as a per-identifier failure. -/
theorem delete_transport_abort_eval :
    deleteOrphanedResources
        (fun id => if id = "a" then .netErr "request timeout" else .decodeEOF)
        [("a", 10), ("b", 20)] 0 0 [] 0
      = .err "request timeout" 0 0 [] 1 := by rfl

/-- C3 (counterexample): in the confirmation-prompt variant, a DELETE
response whose envelope carries the non-empty error "resource locked" makes
`deleteResources` return that error after one request: the identifier is not
recorded in any failure list and "b" is never attempted, so a
service-reported failure does abort this deletion loop. -/
theorem delete_service_error_aborts_eval :
    deleteResources
        (fun id => if id = "a" then .decoded ⟨"resource locked", [], false⟩ else .decodeEOF)
        ["a", "b"] 0
      = .err "resource locked" 1 := by rfl

/-- C3 (amended): a DELETE response with a non-empty envelope error is
handled per variant — `deleteOrphanedResources` appends the identifier to the
failure list and continues with the remaining identifiers, while
`deleteResources` aborts the loop immediately with the server's error. -/
theorem delete_service_error_handling (delServ : String → WireOutcome)
    (id : String) (resp : JoplinResponse)
    (h1 : readOne (delServ id) = .ok resp) (h2 : resp.error ≠ "") :
    (∀ (size : Int) (rest : List (String × Int)) (count : Nat) (total : Int)
        (fails : List String) (reqs : Nat),
      deleteOrphanedResources delServ ((id, size) :: rest) count total fails reqs =
        deleteOrphanedResources delServ rest count total (fails ++ [id]) (reqs + 1))
    ∧ (∀ (rest : List String) (reqs : Nat),
      deleteResources delServ (id :: rest) reqs = .err resp.error (reqs + 1)) := by
  constructor
  · intro size rest count total fails reqs
    simp [deleteOrphanedResources, h1, h2]
  · intro rest reqs
    simp [deleteResources, h1, h2]

/-- Witness for C3 (amended): a concrete server error on "x" is appended to
the failure list by the V1 loop and aborts the V2 loop. -/
theorem delete_service_error_handling_witness :
    deleteOrphanedResources (fun _ => .decoded ⟨"err", [], false⟩) [("x", 5)] 0 0 [] 0
      = .ok 0 0 ["x"] 1
    ∧ deleteResources (fun _ => .decoded ⟨"err", [], false⟩) ["x"] 0 = .err "err" 1 := by
  have h := delete_service_error_handling (fun _ => .decoded ⟨"err", [], false⟩) "x"
    ⟨"err", [], false⟩ rfl (by decide)
  exact ⟨(h.1 5 [] 0 0 [] 0).trans rfl, h.2 [] 0⟩

/-- Without transport failures, the V1 deletion loop processes every entry:
successes bump the count and size total, server-reported failures append the
identifier, and one DELETE request is issued per entry. -/
theorem deleteOrphanedResources_no_transport (delServ : String → WireOutcome)
    (entries : List (String × Int)) :
    ∀ (count : Nat) (total : Int) (fails : List String) (reqs : Nat),
      (∀ p ∈ entries, deleteOK delServ p.1) →
      deleteOrphanedResources delServ entries count total fails reqs =
        .ok (count + (entries.filter fun p => delSucceeds delServ p.1).length)
            (total + ((entries.filter fun p => delSucceeds delServ p.1).map Prod.snd).sum)
            (fails ++ (entries.filter fun p => !delSucceeds delServ p.1).map Prod.fst)
            (reqs + entries.length) := by
  induction entries with
  | nil => intro count total fails reqs _; simp [deleteOrphanedResources]
  | cons e rest ih =>
    intro count total fails reqs h
    obtain ⟨id, size⟩ := e
    obtain ⟨resp, hresp⟩ := h (id, size) (List.mem_cons_self _ _)
    have hrest : ∀ p ∈ rest, deleteOK delServ p.1 :=
      fun p hp => h p (List.mem_cons_of_mem _ hp)
    by_cases he : resp.error = ""
    · have hs : delSucceeds delServ id = true := by simp [delSucceeds, hresp, he]
      simp only [deleteOrphanedResources, hresp, he, ne_eq, not_true_eq_false, if_false,
        ih _ _ _ _ hrest, List.filter_cons, hs, Bool.not_true]
      simp only [if_true, if_false, List.length_cons, List.map_cons, List.sum_cons,
        DeleteOut.ok.injEq, Bool.false_eq_true]
      and_intros <;> first | rfl | ring
    · have hs : delSucceeds delServ id = false := by simp [delSucceeds, hresp, he]
      simp only [deleteOrphanedResources, hresp, he, ne_eq, not_false_eq_true, if_true,
        ih _ _ _ _ hrest, List.filter_cons, hs, Bool.not_false]
      simp only [if_true, if_false, List.length_cons, List.map_cons,
        DeleteOut.ok.injEq, Bool.false_eq_true, List.append_assoc, List.singleton_append]
      and_intros <;> first | rfl | ring

/-- C2: when every identifier receives a response (no transport failure), the
V1 Deletion Executor returns with deleted count plus failure-list length equal
to the input size, the count equal to the number of successfully deleted
resources, and the reclaimed-byte total equal to the sum of exactly those
resources' recorded sizes. -/
theorem deletion_accounting (delServ : String → WireOutcome)
    (entries : List (String × Int))
    (h : ∀ p ∈ entries, deleteOK delServ p.1) :
    ∃ (count : Nat) (total : Int) (fails : List String) (reqs : Nat),
      deleteOrphanedResources delServ entries 0 0 [] 0 = .ok count total fails reqs
      ∧ count + fails.length = entries.length
      ∧ count = (entries.filter fun p => delSucceeds delServ p.1).length
      ∧ total = ((entries.filter fun p => delSucceeds delServ p.1).map Prod.snd).sum := by
  refine ⟨_, _, _, _, deleteOrphanedResources_no_transport delServ entries 0 0 [] 0 h,
    ?_, by simp, by simp⟩
  have hcount := List.length_eq_countP_add_countP
    (p := fun p => delSucceeds delServ p.1) (l := entries)
  simp only [List.countP_eq_length_filter] at hcount
  have hpred : (fun (a : String × Int) => decide (¬ delSucceeds delServ a.1 = true))
      = (fun a => !delSucceeds delServ a.1) := by
    funext a
    cases hsa : delSucceeds delServ a.1 <;> simp [hsa]
  rw [hpred] at hcount
  simp only [Nat.zero_add, List.nil_append, List.length_map]
  omega

/-- Witness for C2: two orphans, one deleted and one failing server-side —
the summary is count 1, 10 bytes, failure list ["b"]. -/
theorem deletion_accounting_witness :
    (∀ p ∈ [(("a" : String), (10 : Int)), ("b", 20)],
      deleteOK (fun id => if id = "a" then .decodeEOF else .decoded ⟨"cannot delete", [], false⟩) p.1)
    ∧ ∃ (count : Nat) (total : Int) (fails : List String) (reqs : Nat),
      deleteOrphanedResources
          (fun id => if id = "a" then .decodeEOF else .decoded ⟨"cannot delete", [], false⟩)
          [("a", 10), ("b", 20)] 0 0 [] 0 = .ok count total fails reqs
      ∧ count + fails.length = 2 := by
  have hok : ∀ p ∈ [(("a" : String), (10 : Int)), ("b", 20)],
      deleteOK (fun id => if id = "a" then .decodeEOF else .decoded ⟨"cannot delete", [], false⟩) p.1 := by
    intro p hp
    simp only [List.mem_cons, List.mem_singleton] at hp
    rcases hp with h | h | h
    · exact ⟨zeroResponse, by rw [h]; rfl⟩
    · exact ⟨⟨"cannot delete", [], false⟩, by rw [h]; rfl⟩
    · cases h
  obtain ⟨count, total, fails, reqs, heq, hlen, -, -⟩ :=
    deletion_accounting _ [("a", 10), ("b", 20)] hok
  exact ⟨hok, count, total, fails, reqs, heq, hlen⟩

/-- An error-free filter loop pass removes from the map exactly the entries
whose identifier is in the iteration list and is referenced, issuing one notes
query per listed identifier. -/
theorem filterResourcesLoop_ok (notesServ : String → WireOutcome) :
    ∀ (ids : List String) (m : List (String × Int)) (reqs : Nat),
      (∀ id ∈ ids, notesOK notesServ id) →
      filterResourcesLoop notesServ ids m reqs =
        .ok (m.filter fun p => !(ids.contains p.1 && referenced notesServ p.1))
            (reqs + ids.length) := by
  intro ids
  induction ids with
  | nil =>
    intro m reqs _
    simp only [filterResourcesLoop, List.length_nil, Nat.add_zero, FilterOut.ok.injEq,
      List.contains_nil, Bool.false_and, Bool.not_false, List.filter_true, and_true]
  | cons id rest ih =>
    intro m reqs h
    obtain ⟨resp, hresp, herr⟩ := h id (List.mem_cons_self _ _)
    have hrest : ∀ i ∈ rest, notesOK notesServ i :=
      fun i hi => h i (List.mem_cons_of_mem _ hi)
    have hlen : reqs + 1 + rest.length = reqs + (rest.length + 1) := by omega
    by_cases href : resp.items.length > 0
    · have hr : referenced notesServ id = true := by
        simp only [referenced, hresp]
        simp [href]
      simp only [filterResourcesLoop, hresp, herr, ne_eq, not_true_eq_false, if_false,
        href, if_true, ih _ _ hrest, mapErase, List.filter_filter,
        List.length_cons, FilterOut.ok.injEq, hlen, and_true]
      refine List.filter_congr fun p _ => ?_
      by_cases hp : p.1 = id
      · simp [hp, hr]
      · simp [hp, List.contains_cons, Ne.symm hp]
    · have hr : referenced notesServ id = false := by
        simp only [referenced, hresp]
        simp [href]
      simp only [filterResourcesLoop, hresp, herr, ne_eq, not_true_eq_false, if_false,
        href, ih _ _ hrest, List.length_cons, FilterOut.ok.injEq, hlen, and_true]
      refine List.filter_congr fun p _ => ?_
      by_cases hp : p.1 = id
      · simp [hp, hr, List.contains_cons]
      · simp [hp, List.contains_cons, Ne.symm hp]

/-- An error-free `filterResources` pass keeps exactly the unreferenced
entries, querying each key once. -/
theorem filterResources_ok (notesServ : String → WireOutcome)
    (m : List (String × Int))
    (h : ∀ id ∈ m.map Prod.fst, notesOK notesServ id) :
    filterResources notesServ m =
      .ok (m.filter fun p => !referenced notesServ p.1) ((m.map Prod.fst).length) := by
  rw [filterResources, filterResourcesLoop_ok notesServ _ _ _ h, Nat.zero_add]
  congr 1
  refine List.filter_congr fun p hp => ?_
  have hmem : (m.map Prod.fst).contains p.1 = true :=
    List.contains_iff_exists_mem_beq.mpr ⟨p.1, List.mem_map_of_mem _ hp, by simp⟩
  rw [hmem]
  simp

/-- C5: after a complete error-free Reference Filter pass over a resource map,
every resource whose referencing-notes query returned a non-empty item list
has been removed (its key is gone), and every resource whose query returned an
empty list is still present; the surviving map is exactly the unreferenced
part of the input. -/
theorem filter_membership (notesServ : String → WireOutcome)
    (m : List (String × Int))
    (h : ∀ id ∈ m.map Prod.fst, notesOK notesServ id) :
    ∃ (m2 : List (String × Int)) (reqs : Nat),
      filterResources notesServ m = .ok m2 reqs
      ∧ (∀ p ∈ m, referenced notesServ p.1 = true → p.1 ∉ m2.map Prod.fst)
      ∧ (∀ p ∈ m, referenced notesServ p.1 = false → p ∈ m2) := by
  refine ⟨_, _, filterResources_ok notesServ m h, ?_, ?_⟩
  · intro p _ href hmem
    obtain ⟨q, hq, hqp⟩ := List.mem_map.mp hmem
    obtain ⟨-, hqref⟩ := List.mem_filter.mp hq
    rw [hqp, href] at hqref
    simp at hqref
  · intro p hp href
    exact List.mem_filter.mpr ⟨hp, by simp [href]⟩

/-- Witness for C5: a two-entry map where "a" is referenced and "b" is not —
the filtered map drops "a" and keeps "b". -/
theorem filter_membership_witness :
    (∀ id ∈ ([(("a" : String), (1 : Int)), ("b", 2)].map Prod.fst),
      notesOK (fun id => if id = "a" then .decoded ⟨"", [⟨"n1", 0⟩], false⟩
        else .decoded ⟨"", [], false⟩) id)
    ∧ ∃ (m2 : List (String × Int)) (reqs : Nat),
      filterResources
          (fun id => if id = "a" then .decoded ⟨"", [⟨"n1", 0⟩], false⟩
            else .decoded ⟨"", [], false⟩)
          [("a", 1), ("b", 2)] = .ok m2 reqs
      ∧ ("a" : String) ∉ m2.map Prod.fst
      ∧ (("b" : String), (2 : Int)) ∈ m2 := by
  have hok : ∀ id ∈ ([(("a" : String), (1 : Int)), ("b", 2)].map Prod.fst),
      notesOK (fun id => if id = "a" then .decoded ⟨"", [⟨"n1", 0⟩], false⟩
        else .decoded ⟨"", [], false⟩) id := by
    intro id hid
    simp only [List.map_cons, List.map_nil, List.mem_cons, List.mem_singleton] at hid
    rcases hid with h | h | h
    · exact ⟨⟨"", [⟨"n1", 0⟩], false⟩, by rw [h]; rfl, rfl⟩
    · exact ⟨⟨"", [], false⟩, by rw [h]; rfl, rfl⟩
    · cases h
  obtain ⟨m2, reqs, heq, hgone, hkeep⟩ := filter_membership _ [("a", 1), ("b", 2)] hok
  refine ⟨hok, m2, reqs, heq, ?_, ?_⟩
  · exact hgone ("a", 1) (by simp) (by rfl)
  · exact hkeep ("b", 2) (by simp) (by rfl)

/-- C9: the Reference Filter is idempotent — with an unchanged notes oracle,
running an error-free pass again on the already-filtered map removes nothing
further and returns the same map. -/
theorem filter_idempotent (notesServ : String → WireOutcome)
    (m m2 : List (String × Int)) (reqs : Nat)
    (h : ∀ id ∈ m.map Prod.fst, notesOK notesServ id)
    (hrun : filterResources notesServ m = .ok m2 reqs) :
    filterResources notesServ m2 = .ok m2 (m2.length) := by
  rw [filterResources_ok notesServ m h] at hrun
  have hm2 : m2 = m.filter fun p => !referenced notesServ p.1 := by
    cases hrun
    rfl
  have h2 : ∀ id ∈ m2.map Prod.fst, notesOK notesServ id := by
    intro id hid
    obtain ⟨q, hq, hqp⟩ := List.mem_map.mp hid
    have : q ∈ m := by
      rw [hm2] at hq
      exact (List.mem_filter.mp hq).1
    exact h id (hqp ▸ List.mem_map_of_mem Prod.fst this)
  rw [filterResources_ok notesServ m2 h2, List.length_map]
  congr 1
  refine List.filter_eq_self.mpr fun p hp => ?_
  rw [hm2] at hp
  exact (List.mem_filter.mp hp).2

/-- Witness for C9: a second pass over the map already filtered in the C5
scenario returns it unchanged. -/
theorem filter_idempotent_witness :
    filterResources
        (fun id => if id = "a" then .decoded ⟨"", [⟨"n1", 0⟩], false⟩
          else .decoded ⟨"", [], false⟩)
        [(("b" : String), (2 : Int))] = .ok [("b", 2)] 1 := by
  have hok : ∀ id ∈ ([(("a" : String), (1 : Int)), ("b", 2)].map Prod.fst),
      notesOK (fun id => if id = "a" then .decoded ⟨"", [⟨"n1", 0⟩], false⟩
        else .decoded ⟨"", [], false⟩) id := by
    intro id hid
    simp only [List.map_cons, List.map_nil, List.mem_cons, List.mem_singleton] at hid
    rcases hid with h | h | h
    · exact ⟨⟨"", [⟨"n1", 0⟩], false⟩, by rw [h]; rfl, rfl⟩
    · exact ⟨⟨"", [], false⟩, by rw [h]; rfl, rfl⟩
    · cases h
  have := filter_idempotent _ [("a", 1), ("b", 2)] [("b", 2)] 2 hok (by rfl)
  simpa using this

/-- Inserting a key not yet in the map appends the new entry. -/
theorem mapInsert_fresh (m : List (String × Int)) (k : String) (v : Int)
    (h : k ∉ m.map Prod.fst) : mapInsert m k v = m ++ [(k, v)] := by
  rw [mapInsert, if_neg]
  simp only [List.any_eq_true, decide_eq_true_eq, not_exists, not_and]
  intro p hp hpk
  exact h (hpk ▸ List.mem_map_of_mem _ hp)

/-- Folding a page of items with pairwise-distinct identifiers, all fresh for
the accumulator, appends the corresponding entries in order. -/
theorem foldl_mapInsert_fresh :
    ∀ (items : List Item) (acc : List (String × Int)),
      (items.map Item.id).Nodup →
      (∀ it ∈ items, it.id ∉ acc.map Prod.fst) →
      items.foldl (fun a it => mapInsert a it.id it.size) acc
        = acc ++ items.map fun it => (it.id, it.size) := by
  intro items
  induction items with
  | nil => intro acc _ _; simp
  | cons it rest ih =>
    intro acc hnd hfresh
    have hhead : it.id ∉ acc.map Prod.fst := hfresh it (List.mem_cons_self _ _)
    have hnd2 : (rest.map Item.id).Nodup := by
      simp only [List.map_cons, List.nodup_cons] at hnd
      exact hnd.2
    have hne : it.id ∉ rest.map Item.id := by
      simp only [List.map_cons, List.nodup_cons] at hnd
      exact hnd.1
    have hfresh2 : ∀ j ∈ rest, j.id ∉ (acc ++ [(it.id, it.size)]).map Prod.fst := by
      intro j hj
      simp only [List.map_append, List.mem_append, List.map_cons, List.map_nil,
        List.mem_singleton, not_or]
      refine ⟨hfresh j (List.mem_cons_of_mem _ hj), fun hjid => ?_⟩
      exact hne (hjid ▸ List.mem_map_of_mem _ hj)
    simp only [List.foldl_cons, mapInsert_fresh acc it.id it.size hhead,
      ih _ hnd2 hfresh2, List.map_cons, List.append_assoc, List.singleton_append]

/-- `reqPages` is at least one: the collection loop always issues the first
page request. -/
theorem one_le_reqPages (n : Nat) : 1 ≤ reqPages n := by
  rw [reqPages]
  split <;> omega

/-- A listing that fits in one page needs exactly one request. -/
theorem reqPages_of_le (n : Nat) (h : n ≤ 100) : reqPages n = 1 := by
  rw [reqPages]
  split <;> omega

/-- Past a full page, one request plus the requests for the remainder. -/
theorem reqPages_step (n : Nat) (h : 100 < n) :
    reqPages n = reqPages (n - 100) + 1 := by
  simp only [reqPages]
  split <;> split <;> omega

/-- Against the well-behaved paginated server, the collection loop starting at
page `p` with enough fuel returns the accumulator extended with every
remaining item, using exactly `reqPages` requests for the remaining length. -/
theorem getAllResourcesLoop_paginated (all : List Item) :
    ∀ (fuel p : Nat) (acc : List (String × Int)) (reqs : Nat),
      1 ≤ p →
      ((all.drop ((p - 1) * 100)).map Item.id).Nodup →
      (∀ it ∈ all.drop ((p - 1) * 100), it.id ∉ acc.map Prod.fst) →
      reqPages (all.drop ((p - 1) * 100)).length ≤ fuel →
      getAllResourcesLoop (paginatedServ all) fuel p acc reqs =
        some (.ok (acc ++ (all.drop ((p - 1) * 100)).map fun it => (it.id, it.size))
          (reqs + reqPages (all.drop ((p - 1) * 100)).length)) := by
  intro fuel
  induction fuel with
  | zero =>
    intro p acc reqs _ _ _ hfuel
    exact absurd hfuel (by have := one_le_reqPages (all.drop ((p - 1) * 100)).length; omega)
  | succ fuel ih =>
    intro p acc reqs hp hnd hfresh hfuel
    have hrlen : (all.drop ((p - 1) * 100)).length = all.length - (p - 1) * 100 :=
      List.length_drop _ _
    have hfold : List.foldl (fun a it => mapInsert a it.id it.size) acc
          ((all.drop ((p - 1) * 100)).take 100)
        = acc ++ ((all.drop ((p - 1) * 100)).take 100).map fun it => (it.id, it.size) := by
      refine foldl_mapInsert_fresh _ acc ?_ ?_
      · exact ((List.take_sublist _ _).map Item.id).nodup hnd
      · exact fun it hit => hfresh it (List.mem_of_mem_take hit)
    simp only [getAllResourcesLoop, paginatedServ, pageSlice, readOne, ne_eq,
      not_true_eq_false, if_false, hfold]
    by_cases hmore : p * 100 < all.length
    · have hdec : decide (p * 100 < all.length) = true := decide_eq_true hmore
      rw [hdec]
      simp only [if_true]
      have hdrop : all.drop (p * 100) = (all.drop ((p - 1) * 100)).drop 100 := by
        rw [List.drop_drop]
        congr 1
        omega
      have hsplit : (all.drop ((p - 1) * 100)).map Item.id
          = ((all.drop ((p - 1) * 100)).take 100).map Item.id
            ++ ((all.drop ((p - 1) * 100)).drop 100).map Item.id := by
        rw [← List.map_append, List.take_append_drop]
      have hnd2 : ((all.drop ((p + 1 - 1) * 100)).map Item.id).Nodup := by
        have : (p + 1 - 1) * 100 = p * 100 := by omega
        rw [this, hdrop]
        exact ((List.drop_sublist _ _).map Item.id).nodup hnd
      have hfresh2 : ∀ it ∈ all.drop ((p + 1 - 1) * 100),
          it.id ∉ (acc ++ ((all.drop ((p - 1) * 100)).take 100).map
            fun j => (j.id, j.size)).map Prod.fst := by
        have hpeq : (p + 1 - 1) * 100 = p * 100 := by omega
        rw [hpeq, hdrop]
        intro it hit
        simp only [List.map_append, List.mem_append, not_or, List.map_map]
        constructor
        · exact hfresh it (List.mem_of_mem_drop hit)
        · have hdisj := (List.nodup_append.mp (hsplit ▸ hnd)).2.2
          have hmem : it.id ∈ ((all.drop ((p - 1) * 100)).drop 100).map Item.id :=
            List.mem_map_of_mem _ hit
          intro hin
          have : (Prod.fst ∘ fun j => (j.id, j.size)) = Item.id := rfl
          rw [this] at hin
          exact hdisj hin hmem
      have h100 : 100 < (all.drop ((p - 1) * 100)).length := by
        rw [hrlen]; omega
      have hstep := reqPages_step _ h100
      have hfuel2 : reqPages (all.drop ((p + 1 - 1) * 100)).length ≤ fuel := by
        have hpeq : (p + 1 - 1) * 100 = p * 100 := by omega
        rw [hpeq, hdrop, List.length_drop]
        omega
      rw [ih (p + 1) _ (reqs + 1) (by omega) hnd2 hfresh2 hfuel2]
      have hpeq : (p + 1 - 1) * 100 = p * 100 := by omega
      congr 1
      rw [hpeq, hdrop]
      congr 1
      · rw [List.append_assoc, ← List.map_append, List.take_append_drop]
      · rw [List.length_drop]
        omega
    · have hdec : decide (p * 100 < all.length) = false := decide_eq_false hmore
      rw [hdec]
      simp only [Bool.false_eq_true, if_false]
      have hle : (all.drop ((p - 1) * 100)).length ≤ 100 := by
        rw [hrlen]; omega
      rw [List.take_of_length_le hle, reqPages_of_le _ hle]

/-- Against the paginated server with distinct identifiers and enough fuel,
`getAllResources` returns every item as a map entry, in `reqPages` requests. -/
theorem getAllResources_paginated (all : List Item)
    (hnd : (all.map Item.id).Nodup) (fuel : Nat)
    (hfuel : reqPages all.length ≤ fuel) :
    getAllResources (paginatedServ all) fuel =
      some (.ok (all.map fun it => (it.id, it.size)) (reqPages all.length)) := by
  have h := getAllResourcesLoop_paginated all fuel 1 [] 0 (Nat.le_refl 1)
    (by simpa using hnd) (by simp) (by simpa using hfuel)
  simpa using h

/-- C4: for a paginated listing of `100 * k + r` items (`r < 100`) with
distinct identifiers, the Resource Collector — starting at page 1 with page
size 100 and advancing while `has_more` holds — issues exactly `k + 1` page
requests (`k` when `r = 0` and the last full page reports no more) and the
resulting map holds exactly one entry per item. -/
theorem collector_pagination (all : List Item) (k r : Nat)
    (hlen : all.length = 100 * k + r) (hr : r < 100)
    (hnd : (all.map Item.id).Nodup) :
    ∃ res : List (String × Int),
      getAllResources (paginatedServ all) (k + 2) =
        some (.ok res (if r = 0 ∧ 0 < k then k else k + 1))
      ∧ res.length = all.length := by
  have hmod : (100 * k + r) % 100 = r := by omega
  have hdiv : (100 * k + r) / 100 = k := by omega
  have hreq : reqPages all.length = if r = 0 ∧ 0 < k then k else k + 1 := by
    rw [reqPages, hlen, hmod, hdiv]
  have hfuel : reqPages all.length ≤ k + 2 := by
    rw [hreq]; split <;> omega
  refine ⟨all.map fun it => (it.id, it.size), ?_, by simp⟩
  rw [getAllResources_paginated all hnd _ hfuel, hreq]

/-- Witness for C4: a three-item listing (`k = 0`, `r = 3`) is collected in
one request into a three-entry map. -/
theorem collector_pagination_witness :
    ∃ res : List (String × Int),
      getAllResources (paginatedServ [⟨"a1", 1⟩, ⟨"a2", 2⟩, ⟨"a3", 3⟩]) 2 =
        some (.ok res 1)
      ∧ res.length = 3 := by
  obtain ⟨res, h1, h2⟩ :=
    collector_pagination [⟨"a1", 1⟩, ⟨"a2", 2⟩, ⟨"a3", 3⟩] 0 3 (by rfl)
      (by omega) (by decide)
  exact ⟨res, by simpa using h1, h2⟩

/-- C6: a listing-page response with a non-empty envelope error stops the
collection loop immediately (one request for that page, no further pages) and
returns the server's message; when this happens on the first page, the whole
run aborts with that message having issued no filter query and no DELETE. -/
theorem collector_error_aborts (serv : Nat → WireOutcome)
    (notesServ delServ : String → WireOutcome)
    (p : Nat) (resp : JoplinResponse)
    (hserv : readOne (serv p) = .ok resp) (herr : resp.error ≠ "") :
    (∀ fuel acc reqs, getAllResourcesLoop serv (fuel + 1) p acc reqs =
        some (.err resp.error (reqs + 1)))
    ∧ (p = 1 → ∀ fuel, runPipeline serv notesServ delServ (fuel + 1) =
        some ⟨.collectErr resp.error, 1, 0, 0⟩) := by
  have hloop : ∀ fuel acc reqs, getAllResourcesLoop serv (fuel + 1) p acc reqs =
      some (.err resp.error (reqs + 1)) := by
    intro fuel acc reqs
    simp [getAllResourcesLoop, hserv, herr]
  refine ⟨hloop, fun hp fuel => ?_⟩
  subst hp
  rw [runPipeline, getAllResources, hloop fuel [] 0]

/-- Witness for C6: the first listing call answers
`{"error": "Invalid token", "items": [], "has_more": false}` — the run aborts
with that message, zero filter queries and zero DELETE requests. -/
theorem collector_error_aborts_witness :
    runPipeline (fun _ => .decoded ⟨"Invalid token", [], false⟩)
        (fun _ => .decodeEOF) (fun _ => .decodeEOF) 1 =
      some ⟨.collectErr "Invalid token", 1, 0, 0⟩ :=
  (collector_error_aborts (fun _ => .decoded ⟨"Invalid token", [], false⟩)
    (fun _ => .decodeEOF) (fun _ => .decodeEOF) 1 ⟨"Invalid token", [], false⟩
    rfl (by decide)).2 rfl 0

/-- The V2 deletion loop never rewinds its request counter. -/
theorem deleteResources_reqs_ge (delServ : String → WireOutcome) :
    ∀ (ids : List String) (reqs : Nat),
      reqs ≤ (deleteResources delServ ids reqs).requests := by
  intro ids
  induction ids with
  | nil => intro reqs; exact Nat.le_refl _
  | cons id rest ih =>
    intro reqs
    rw [deleteResources]
    cases readOne (delServ id) with
    | error m => simp [DeleteOut2.requests]
    | ok resp =>
      by_cases he : resp.error = ""
      · simp only [he, ne_eq, not_true_eq_false, if_false]
        exact Nat.le_trans (Nat.le_succ reqs) (ih (reqs + 1))
      · simp [he, DeleteOut2.requests]

/-- Deleting a non-empty identifier set issues at least one DELETE request. -/
theorem deleteResources_reqs_pos (delServ : String → WireOutcome)
    (id : String) (rest : List String) :
    1 ≤ (deleteResources delServ (id :: rest) 0).requests := by
  rw [deleteResources]
  cases readOne (delServ id) with
  | error m => simp [DeleteOut2.requests]
  | ok resp =>
    by_cases he : resp.error = ""
    · simp only [he, ne_eq, not_true_eq_false, if_false]
      exact deleteResources_reqs_ge delServ rest 1
    · simp [he, DeleteOut2.requests]

/-- C7: in the confirmation-prompt variant, once a non-empty orphan set
reaches the prompt, the line read from standard input is compared — after
stripping the trailing newline — case-sensitively against exactly "yes" and
"Yes": any other input ends the run with zero DELETE requests, and "yes" or
"Yes" leads to the deletion loop (at least one DELETE request). -/
theorem confirmation_gate (serv : Nat → WireOutcome)
    (notesServ delServ : String → WireOutcome) (fuel : Nat)
    (ids orphans : List String) (creqs freqs : Nat) (line : String)
    (hc : getAllResources2 serv fuel = some (.ok ids creqs))
    (hf : filterResources2 notesServ ids = .ok orphans freqs)
    (hne : orphans ≠ []) :
    (trimSuffixNewline line ≠ "yes" ∧ trimSuffixNewline line ≠ "Yes" →
      runPipeline2 serv notesServ delServ fuel (.ok line) =
        some ⟨.declined (trimSuffixNewline line), 0⟩)
    ∧ ((trimSuffixNewline line = "yes" ∨ trimSuffixNewline line = "Yes") →
      ∃ t : Run2Trace, runPipeline2 serv notesServ delServ fuel (.ok line) = some t
        ∧ 1 ≤ t.deleteReqs) := by
  have hlen : ¬ orphans.length < 1 := by
    cases orphans with
    | nil => exact absurd rfl hne
    | cons a as => simp
  constructor
  · intro hno
    simp only [runPipeline2, hc, hf, if_neg hlen, if_pos hno]
  · intro hyes
    have hno : ¬ (trimSuffixNewline line ≠ "yes" ∧ trimSuffixNewline line ≠ "Yes") := by
      rcases hyes with h | h <;> simp [h]
    simp only [runPipeline2, hc, hf, if_neg hlen, if_neg hno]
    obtain ⟨id, rest, hor⟩ : ∃ id rest, orphans = id :: rest := by
      cases orphans with
      | nil => exact absurd rfl hne
      | cons a as => exact ⟨a, as, rfl⟩
    have hpos := deleteResources_reqs_pos delServ id rest
    rw [← hor] at hpos
    cases hdel : deleteResources delServ orphans 0 with
    | ok dreqs =>
      rw [hdel, DeleteOut2.requests] at hpos
      exact ⟨⟨.deleted, dreqs⟩, rfl, hpos⟩
    | err m dreqs =>
      rw [hdel, DeleteOut2.requests] at hpos
      exact ⟨⟨.deleteErr m, dreqs⟩, rfl, hpos⟩

/-- Witness for C7: with one orphan "a", entering "no" ends the run with zero
DELETE requests, and entering "yes" reaches the deletion loop. -/
theorem confirmation_gate_witness :
    runPipeline2 (fun _ => .decoded ⟨"", [⟨"a", 0⟩], false⟩)
        (fun _ => .decoded ⟨"", [], false⟩) (fun _ => .decodeEOF) 1
        (.ok "no\n") = some ⟨.declined "no", 0⟩
    ∧ ∃ t : Run2Trace, runPipeline2 (fun _ => .decoded ⟨"", [⟨"a", 0⟩], false⟩)
        (fun _ => .decoded ⟨"", [], false⟩) (fun _ => .decodeEOF) 1
        (.ok "yes\n") = some t ∧ 1 ≤ t.deleteReqs := by
  have h1 := confirmation_gate (fun _ => .decoded ⟨"", [⟨"a", 0⟩], false⟩)
    (fun _ => .decoded ⟨"", [], false⟩) (fun _ => .decodeEOF) 1
    ["a"] ["a"] 1 1 "no\n" rfl rfl (by decide)
  have h2 := confirmation_gate (fun _ => .decoded ⟨"", [⟨"a", 0⟩], false⟩)
    (fun _ => .decoded ⟨"", [], false⟩) (fun _ => .decodeEOF) 1
    ["a"] ["a"] 1 1 "yes\n" rfl rfl (by decide)
  have htrim : trimSuffixNewline "no\n" = "no" := by decide
  have htrim2 : trimSuffixNewline "yes\n" = "yes" := by decide
  refine ⟨?_, h2.2 (Or.inl htrim2)⟩
  have := h1.1 (by rw [htrim]; exact ⟨by decide, by decide⟩)
  rw [htrim] at this
  exact this

/-- C10: in the confirmation-prompt variant, if reading the confirmation line
from standard input fails, the run ends (after logging) with zero DELETE
requests even though the orphan set is non-empty. -/
theorem stdin_error_aborts (serv : Nat → WireOutcome)
    (notesServ delServ : String → WireOutcome) (fuel : Nat)
    (ids orphans : List String) (creqs freqs : Nat) (e : String)
    (hc : getAllResources2 serv fuel = some (.ok ids creqs))
    (hf : filterResources2 notesServ ids = .ok orphans freqs)
    (hne : orphans ≠ []) :
    runPipeline2 serv notesServ delServ fuel (.error e) = some ⟨.stdinErr e, 0⟩ := by
  have hlen : ¬ orphans.length < 1 := by
    cases orphans with
    | nil => exact absurd rfl hne
    | cons a as => simp
  simp only [runPipeline2, hc, hf, if_neg hlen]

/-- Witness for C10: with one orphan "a" and standard input failing with
"EOF", the run ends with zero DELETE requests. -/
theorem stdin_error_aborts_witness :
    runPipeline2 (fun _ => .decoded ⟨"", [⟨"a", 0⟩], false⟩)
        (fun _ => .decoded ⟨"", [], false⟩) (fun _ => .decodeEOF) 1
        (.error "EOF") = some ⟨.stdinErr "EOF", 0⟩ :=
  stdin_error_aborts (fun _ => .decoded ⟨"", [⟨"a", 0⟩], false⟩)
    (fun _ => .decoded ⟨"", [], false⟩) (fun _ => .decodeEOF) 1
    ["a"] ["a"] 1 1 "EOF" rfl rfl (by decide)

end JoplinCleaner
